import Mathlib

/-!
Shallow embedding of the `sourced` repository's core: the metadata store
(`Dataset` / `Source` / `GlobalStore` in `sourced/dataset/db.py`), the
concurrency sizing and bounded streaming executor
(`daedalus/_internal/parallelization.py`), and the PyPI acquisition pipeline
(`sourced/dataset/pypi.py`), together with proofs of the specified
properties.

Paths are modelled as lists of components (`PyPath`); Python's `pathlib`
joining `root / rel` is list append, `p.relative_to(root)` strips a prefix
(raising if `root` is not a prefix), and the self-relative path `.` is the
empty component list.
-/

/-- A filesystem path, as its list of components. -/
abbrev PyPath := List String

/-- The `SourceStatus` enum of `sourced/dataset/db.py`.  Its member values
are the strings equal to the member names. -/
inductive SourceStatus where
  | AWAITING_DOWNLOAD
  | DOWNLOADED
  | SKIPPED

deriving DecidableEq, Repr

/-- The `.name` attribute of a `SourceStatus` member (used by `to_json`). -/
def SourceStatus.nameStr : SourceStatus → String
  | .AWAITING_DOWNLOAD => "AWAITING_DOWNLOAD"
  | .DOWNLOADED => "DOWNLOADED"
  | .SKIPPED => "SKIPPED"

/-- The enum lookup by value `SourceStatus(v)` (used by `from_json`);
`none` models the `ValueError` raised on an unknown value. -/
def SourceStatus.fromValue : String → Option SourceStatus
  | "AWAITING_DOWNLOAD" => some .AWAITING_DOWNLOAD
  | "DOWNLOADED" => some .DOWNLOADED
  | "SKIPPED" => some .SKIPPED
  | _ => none

/-- The `Source` dataclass of `sourced/dataset/db.py`. -/
structure Source where
  name : String
  path : Option PyPath := none
  status : SourceStatus := .AWAITING_DOWNLOAD

deriving DecidableEq, Repr

/-- The JSON document emitted for one `Source`: the `path` field holds the
component list of the serialized (relative) path string, `none` for JSON
`null`. -/
structure SourceJson where
  name : String
  path : Option PyPath
  status : String

deriving DecidableEq, Repr

/-- Python's `p.relative_to(root)`: strips `root` as a prefix of `p`;
`none` models the `ValueError` raised when `p` is not under `root`. -/
def pathRelativeTo (p root : PyPath) : Option PyPath :=
  if root.isPrefixOf p then some (p.drop root.length) else none

/-- `Source.to_json(relative_to)`: the path, when present, is serialized
relative to the dataset root; `none` when `relative_to` raises. -/
def Source.toJson (s : Source) (relativeTo : PyPath) : Option SourceJson :=
  match s.path with
  | some p =>
      (pathRelativeTo p relativeTo).map
        (fun rel => { name := s.name, path := some rel, status := s.status.nameStr })
  | none => some { name := s.name, path := none, status := s.status.nameStr }

/-- `Source.from_json(json_data, relative_to)`: rejoins the relative path
onto the dataset root; `none` when the status value is not a member of the
enum. -/
def Source.fromJson (j : SourceJson) (relativeTo : PyPath) : Option Source :=
  (SourceStatus.fromValue j.status).map
    (fun st =>
      { name := j.name
        path := j.path.map (fun rel => relativeTo ++ rel)
        status := st })

/-- The `Dataset` dataclass of `sourced/dataset/db.py`. -/
structure Dataset where
  name : String
  path : PyPath
  sources : List Source := []

deriving DecidableEq, Repr

/-- The JSON document emitted for one `Dataset`. -/
structure DatasetJson where
  name : String
  path : PyPath
  sources : List SourceJson

deriving DecidableEq, Repr

/-- A Python list comprehension whose element expression may raise:
`none` as soon as one element fails. -/
def optionMapM {α β : Type} (f : α → Option β) : List α → Option (List β)
  | [] => some []
  | a :: t =>
    match f a with
    | none => none
    | some b => (optionMapM f t).map (fun bs => b :: bs)

/-- `Dataset.to_json`: serializes each source relative to the dataset
path. -/
def Dataset.toJson (d : Dataset) : Option DatasetJson :=
  (optionMapM (fun s => s.toJson d.path) d.sources).map
    (fun sjs => { name := d.name, path := d.path, sources := sjs })

/-- `Dataset.from_json`. -/
def Dataset.fromJson (j : DatasetJson) : Option Dataset :=
  (optionMapM (fun sj => Source.fromJson sj j.path) j.sources).map
    (fun ss => { name := j.name, path := j.path, sources := ss })

/-- Boolean guard used to state that a source path, when present, lies
under the given dataset root. -/
def pathUnderRoot (root : PyPath) : Option PyPath → Bool
  | none => true
  | some p => root.isPrefixOf p

/-!  Concurrency sizing (`workers` in `daedalus/_internal/parallelization.py`). -/

/-- Python `round(n / 4)` for a natural `n`: nearest integer, ties to
even.  Both `cpu_count * 1.25` and `cpu_count * 2` are quarter-integers
`n / 4` represented exactly in floating point, so the code's rounding is
exactly this function. -/
def pythonRoundDiv4 (n : Nat) : Nat :=
  if n % 4 < 2 then n / 4
  else if n % 4 = 3 then n / 4 + 1
  else if (n / 4) % 2 = 0 then n / 4 else n / 4 + 1

/-- Python `os.cpu_count() or 4`: `or` replaces a falsy (`None` or `0`)
count with 4. -/
def cpuCountOr4 : Option Nat → Nat
  | none => 4
  | some 0 => 4
  | some (n + 1) => n + 1

/-- The `workers(*, heavy)` function, with the ambient `os.cpu_count()`
made an explicit argument. -/
def workers (cpuCount : Option Nat) (heavy : String) : Except String Nat :=
  let P := cpuCountOr4 cpuCount
  if heavy = "io" then .ok (P * 4)
  else if heavy = "cpu" then .ok (pythonRoundDiv4 (P * 5))
  else if heavy = "both" then .ok (pythonRoundDiv4 (P * 8))
  else .error ("Invalid heavy workload type: " ++ heavy)

/-- Rounding half to even on the rationals (the semantics of Python's
built-in `round`). -/
def roundHalfEven (q : ℚ) : ℤ :=
  if q - ⌊q⌋ < 1 / 2 then ⌊q⌋
  else if 1 / 2 < q - ⌊q⌋ then ⌊q⌋ + 1
  else if ⌊q⌋ % 2 = 0 then ⌊q⌋ else ⌊q⌋ + 1

/-!  `SkipError` (`sourced/dataset/pypi.py`). -/

/-- The `SkipError` dataclass: an exception carrying the project name and
a human-readable reason. -/
structure SkipError where
  project : String
  description : Option String

deriving DecidableEq, Repr

/-- `SkipError.from_source`: sets the source's status to `SKIPPED` and
then builds the error from its name.  The pair is (the source as mutated,
the error value returned to the `raise` site). -/
def SkipError.from_source (s : Source) (description : Option String) :
    Source × SkipError :=
  ({ s with status := .SKIPPED }, ⟨s.name, description⟩)

/-!  Cache writes (`Dataset.cache` / `GlobalStore.cache` in
`sourced/dataset/db.py`, and the older `Dataset.cache` in
`daedalus/dataset/db.py`). -/

/-- The two files a cache write touches: the destination metadata file and
the `mkstemp` temporary, each `none` when absent. -/
structure FileState where
  dest : Option String
  temp : Option String

deriving DecidableEq, Repr

/-- One filesystem step of a cache write.  `openDestW` is
`open(meta_path, "w")`, which truncates the destination in place; a crash
between it and the end of `json.dump` is the partial-write state. -/
inductive CacheOp where
  | mkstempOp
  | writeTemp (content : String)
  | replaceDest
  | openDestW
  | writeDest (content : String)

deriving DecidableEq, Repr

def applyOp (s : FileState) : CacheOp → FileState
  | .mkstempOp => { s with temp := some "" }
  | .writeTemp c => { s with temp := some c }
  | .replaceDest => { dest := s.temp, temp := none }
  | .openDestW => { s with dest := some "" }
  | .writeDest c => { s with dest := some c }

/-- Running a prefix of a cache write's steps; a crash is stopping after
any such prefix. -/
def runOps (s : FileState) (ops : List CacheOp) : FileState :=
  ops.foldl applyOp s

/-- `Dataset.cache` in `sourced/dataset/db.py`: `tempfile.mkstemp` in the
dataset directory, `json.dump` of the serialized document into the temp
file, then `os.replace` over the destination. -/
def datasetCacheOps (serialized : String) : List CacheOp :=
  [.mkstempOp, .writeTemp serialized, .replaceDest]

/-- `GlobalStore.cache` in `sourced/dataset/db.py`: the same
temp-write-replace sequence, in the store file's parent directory. -/
def globalStoreCacheOps (serialized : String) : List CacheOp :=
  [.mkstempOp, .writeTemp serialized, .replaceDest]

/-- `Dataset.cache` in `daedalus/dataset/db.py`: opens the destination
itself for writing (truncating it) and dumps into it — no temporary file
and no rename. -/
def daedalusDatasetCacheOps (serialized : String) : List CacheOp :=
  [.openDestW, .writeDest serialized]

/-!  The acquisition step (`download_target` in `sourced/dataset/pypi.py`). -/

/-- Externally visible side effects of one `download_target` call, in
order: `mkdir`, the project-index fetch of `prepare_download_url`, the
archive `urlretrieve`, `shutil.unpack_archive`, the `iterdir` layout
inspection, the normalization rename, and the `_clear_on_failure`
`shutil.rmtree` cleanup. -/
inductive Effect where
  | mkdirE
  | indexFetch
  | download
  | unpack
  | inspect
  | renameE
  | rmtreeE

deriving DecidableEq, Repr

/-- What the environment does for one item: `prepare_download_url` finds
no usable archive (raising `SkipError`), the download raises, the
extraction raises, or everything succeeds and the archive extracts to
either exactly one top-level directory or any other layout. -/
inductive FetchOutcome where
  | noArchive
  | fetchRaises
  | unpackRaises
  | okSingleDir
  | okOtherLayout

deriving DecidableEq, Repr

/-- The exception leaving `download_target`, when any: a `SkipError` or
any other (non-skip) exception. -/
inductive DownloadExc where
  | skip (e : SkipError)
  | failure

deriving DecidableEq, Repr

/-- Result of one `download_target` call: the source as mutated, the
exception propagated (if any), the effects performed in order, and whether
the destination directory exists afterwards. -/
structure DownloadResult where
  source : Source
  exc : Option DownloadExc
  effects : List Effect
  destDirExists : Bool

deriving DecidableEq, Repr

/-- `download_target(progress, base_path, source)`, with the filesystem
and the network abstracted into `dirExists` (whether
`base_path / source.name` already exists) and `outcome`.  Progress-bar
calls are not modelled.  Mirrors the source branch for branch: an existing
destination returns immediately as `DOWNLOADED`; otherwise the directory
is created, any exception inside `_clear_on_failure` removes it again, and
on successful extraction `source.path` is always assigned while
`source.status = DOWNLOADED` happens only inside the
single-top-level-directory conditional. -/
def download_target (dirExists : Bool) (outcome : FetchOutcome)
    (basePath : PyPath) (s : Source) : DownloadResult :=
  let sourcePath := basePath ++ [s.name]
  if dirExists then
    { source := { s with path := some sourcePath, status := .DOWNLOADED }
      exc := none
      effects := []
      destDirExists := true }
  else
    match outcome with
    | .noArchive =>
        let mutated := SkipError.from_source s (some "no suitable archive found")
        { source := mutated.1
          exc := some (.skip mutated.2)
          effects := [.mkdirE, .indexFetch, .rmtreeE]
          destDirExists := false }
    | .fetchRaises =>
        { source := s
          exc := some .failure
          effects := [.mkdirE, .indexFetch, .download, .rmtreeE]
          destDirExists := false }
    | .unpackRaises =>
        { source := s
          exc := some .failure
          effects := [.mkdirE, .indexFetch, .download, .unpack, .rmtreeE]
          destDirExists := false }
    | .okSingleDir =>
        { source := { s with path := some sourcePath, status := .DOWNLOADED }
          exc := none
          effects := [.mkdirE, .indexFetch, .download, .unpack, .inspect, .renameE]
          destDirExists := true }
    | .okOtherLayout =>
        { source := { s with path := some sourcePath }
          exc := none
          effects := [.mkdirE, .indexFetch, .download, .unpack, .inspect]
          destDirExists := true }

/-- The specified `Source` invariant: a `DOWNLOADED` source has a path, an
`AWAITING_DOWNLOAD` source has none. -/
def sourceStatusPathInv (s : Source) : Prop :=
  (s.status = .DOWNLOADED → s.path.isSome = true)
  ∧ (s.status = .AWAITING_DOWNLOAD → s.path = none)

/-!  The consumption loop of `download_pypi_dataset`
(`sourced/dataset/pypi.py`). -/

/-- The outcome observed by `completed_task.result()` in the consumption
loop: a normal return, a raised `SkipError`, or any other raised
exception. -/
inductive TaskResult where
  | ok
  | skip
  | err

deriving DecidableEq, Repr

/-- The inner loop over one completed batch: per task, `result()` is
inspected inside a `try` that catches only `SkipError`, then
`dataset.cache()` runs.  Returns how many times the dataset was persisted
and whether an uncaught exception aborted the loop. -/
def consumeBatch : List TaskResult → Nat × Bool
  | [] => (0, false)
  | .err :: _ => (0, true)
  | _ :: rest =>
    let r := consumeBatch rest
    (r.1 + 1, r.2)

/-- The outer loop over the stream of completed batches; an uncaught
exception from inside a batch propagates and stops the whole run. -/
def consumeBatches : List (List TaskResult) → Nat × Bool
  | [] => (0, false)
  | b :: rest =>
    let rb := consumeBatch b
    if rb.2 then rb
    else
      let rr := consumeBatches rest
      (rb.1 + rr.1, rr.2)

/-!  Submission filtering in `download_pypi_dataset`
(`sourced/dataset/pypi.py`). -/

/-- `download_pypi_dataset(console, dataset)` restricted to its submission
and mutation behaviour: it filters the sources still `AWAITING_DOWNLOAD`,
submits exactly those to the executor (the per-source work
`download_target` is abstracted as `step`), and no other source is ever
handed to `step`.  Returns (the submitted list, the dataset
afterwards). -/
def download_pypi_dataset (step : Source → Source) (d : Dataset) :
    List Source × Dataset :=
  let awaitingSources := d.sources.filter (fun s => s.status == .AWAITING_DOWNLOAD)
  let newSources := d.sources.map
    (fun s => if s.status = .AWAITING_DOWNLOAD then step s else s)
  (awaitingSources, { d with sources := newSources })

/-!  `GlobalStore` loading (`sourced/dataset/db.py`). -/

/-- `DEFAULT_DATASET_CACHE_FILE_NAME`. -/
def DEFAULT_DATASET_CACHE_FILE_NAME : String := "datasets.json"

/-- The on-disk world of dataset cache files: an association from file
paths to parsed JSON documents, `none` meaning the file does not exist.
Existing files are modelled already parsed; a malformed existing file is a
`from_json` failure, which `GlobalStore.from_json` does not catch. -/
abbrev MetaFs := List (PyPath × DatasetJson)

/-- Error conditions of `Dataset.from_cache`: the Python
`FileNotFoundError` versus any parse failure. -/
inductive CacheError where
  | fileNotFound
  | malformed

deriving DecidableEq, Repr

/-- `Dataset.from_cache(cache_dir)`: looks for the metadata file inside
the directory, raising `FileNotFoundError` when absent, and parses it. -/
def Dataset.from_cache (fs : MetaFs) (cacheDir : PyPath) :
    Except CacheError Dataset :=
  match fs.lookup (cacheDir ++ [DEFAULT_DATASET_CACHE_FILE_NAME]) with
  | none => .error .fileNotFound
  | some j =>
      match Dataset.fromJson j with
      | none => .error .malformed
      | some d => .ok d

/-- The serialized form of a `GlobalStore`: only `(name, path)` reference
pairs, never embedded dataset contents. -/
structure GlobalStoreJson where
  datasets : List (String × PyPath)

deriving DecidableEq, Repr

/-- The `GlobalStore` dataclass: its own file path and the name-keyed
dataset registry (a Python dict, modelled as an insertion-ordered
association list). -/
structure GlobalStore where
  path : PyPath
  datasets : List (String × Dataset)

deriving DecidableEq, Repr

/-- Python dict assignment `d[k] = v` on an insertion-ordered association
list: replaces in place or appends. -/
def dictInsert {α : Type} (k : String) (v : α) :
    List (String × α) → List (String × α)
  | [] => [(k, v)]
  | (k2, v2) :: rest =>
      if k2 = k then (k, v) :: rest else (k2, v2) :: dictInsert k v rest

/-- The loop body of `GlobalStore.from_json`: walks the recorded
references in order; a missing cache file is dropped with a warning
(collected here as the skipped dataset's name), a malformed one
propagates, a loaded one is inserted into the registry. -/
def loadDatasets (fs : MetaFs) (acc : List (String × Dataset))
    (warns : List String) :
    List (String × PyPath) →
      Except CacheError (List (String × Dataset) × List String)
  | [] => .ok (acc, warns)
  | e :: rest =>
    match Dataset.from_cache fs e.2 with
    | .error .fileNotFound => loadDatasets fs acc (warns ++ [e.1]) rest
    | .error .malformed => .error .malformed
    | .ok d => loadDatasets fs (dictInsert e.1 d acc) warns rest

/-- `GlobalStore.from_json(path, json_data)`, also returning the warning
lines it printed. -/
def GlobalStore.from_json (fs : MetaFs) (path : PyPath)
    (j : GlobalStoreJson) :
    Except CacheError (GlobalStore × List String) :=
  match loadDatasets fs [] [] j.datasets with
  | .error e => .error e
  | .ok (ds, ws) => .ok (⟨path, ds⟩, ws)

/-- `GlobalStore.from_file(path)`: a missing store file yields an empty
registry rather than an error. -/
def GlobalStore.from_file (storeFs : PyPath → Option GlobalStoreJson)
    (fs : MetaFs) (path : PyPath) :
    Except CacheError (GlobalStore × List String) :=
  match storeFs path with
  | none => .ok (⟨path, []⟩, [])
  | some j => GlobalStore.from_json fs path j

/-- The registry entry a load keeps for one reference: present exactly
when its cache file loads. -/
def loadedEntry (fs : MetaFs) (e : String × PyPath) :
    Option (String × Dataset) :=
  match Dataset.from_cache fs e.2 with
  | .ok d => some (e.1, d)
  | .error _ => none

/-- The warning a load emits for one reference: present exactly when its
cache file is missing. -/
def droppedName (fs : MetaFs) (e : String × PyPath) : Option String :=
  match Dataset.from_cache fs e.2 with
  | .error .fileNotFound => some e.1
  | _ => none

deriving instance DecidableEq for Except

/-!  The bounded streaming executor (`buffered_execution` in
`daedalus/_internal/parallelization.py`). -/

/-- The orchestrator's state between loop iterations: the items the lazy
iterator has not yet produced (tasks identified by their position in the
input stream) and the set of outstanding futures. -/
structure ExecState where
  pending : List Nat
  running : Finset Nat

deriving DecidableEq

/-- One full run of the `buffered_execution` loop: the completed batches
yielded in order, the number of outstanding tasks during each poll, and
the loop state on exit. -/
structure ExecRun where
  batches : List (Finset Nat)
  outstanding : List Nat
  final : ExecState

deriving DecidableEq

/-- The `buffered_execution` loop.  Per iteration: pull
`max_buffered_tasks - len(running_tasks)` fresh items from the iterator,
break when both the pull and the running set are empty, submit the pulled
items, and wait one poll interval — `σ k` is the set of tasks the workers
happen to finish during poll `k` (`futures.wait` splits the running set
into exactly its finished and unfinished tasks) — yielding the completed
set.  `fuel` bounds the number of loop iterations so the Lean function is
total; a run whose input and completions are exhausted within its fuel
ends in the terminal state `⟨[], ∅⟩`. -/
def buffered_execution (maxB : Nat) (σ : Nat → Finset Nat) :
    Nat → Nat → ExecState → ExecRun
  | 0, _, s => ⟨[], [], s⟩
  | fuel + 1, k, s =>
    let inputs := s.pending.take (maxB - s.running.card)
    if inputs = [] ∧ s.running = ∅ then ⟨[], [], s⟩
    else
      let running2 := s.running ∪ inputs.toFinset
      let r := buffered_execution maxB σ fuel (k + 1)
        ⟨s.pending.drop (maxB - s.running.card), running2 \ σ k⟩
      ⟨(running2 ∩ σ k) :: r.batches, running2.card :: r.outstanding, r.final⟩

/-- The union of the yielded batches. -/
def batchUnion (bs : List (Finset Nat)) : Finset Nat :=
  bs.foldr (fun a b => a ∪ b) ∅

/-! ## Properties -/

theorem statusRoundtrip (st : SourceStatus) :
    SourceStatus.fromValue st.nameStr = some st := by
  cases st <;> rfl

theorem sourceRoundtrip (root : PyPath) (s : Source)
    (h : pathUnderRoot root s.path = true) :
    (s.toJson root).bind (fun j => Source.fromJson j root) = some s := by
  obtain ⟨nm, sp, st⟩ := s
  cases sp with
  | none =>
      simp [Source.toJson, Source.fromJson, statusRoundtrip]
  | some p =>
      have hpre : root <+: p := by
        simpa [pathUnderRoot, List.isPrefixOf_iff_prefix] using h
      obtain ⟨t, ht⟩ := hpre
      have hrel : pathRelativeTo p root = some (p.drop root.length) := by
        simp [pathRelativeTo, List.isPrefixOf_iff_prefix]
        exact ⟨t, ht⟩
      have hjoin : root ++ p.drop root.length = p := by
        rw [← ht, List.drop_left]
      simp [Source.toJson, hrel, Source.fromJson, statusRoundtrip, hjoin]

theorem optionMapMRoundtrip {α β : Type} (f : α → Option β) (g : β → Option α)
    (l : List α) (h : ∀ a ∈ l, (f a).bind g = some a) :
    (optionMapM f l).bind (optionMapM g) = some l := by
  induction l with
  | nil => rfl
  | cons a t ih =>
      have ha := h a (List.mem_cons_self a t)
      cases hfa : f a with
      | none => rw [hfa] at ha; simp at ha
      | some b =>
          rw [hfa] at ha
          simp only [Option.some_bind] at ha
          have ht := ih (fun x hx => h x (List.mem_cons_of_mem a hx))
          cases hft : optionMapM f t with
          | none => rw [hft] at ht; simp at ht
          | some bs =>
              rw [hft] at ht
              simp only [Option.some_bind] at ht
              simp [optionMapM, hfa, hft, ht, ha]

/-- C3: for every `Dataset` whose sources have arbitrary statuses, whose
paths may be `None`, and whose present paths lie under the dataset root,
`Dataset.from_json (Dataset.to_json d)` recovers `d` exactly — name, path,
and the full ordered source list. -/
theorem dataset_roundtrip (d : Dataset)
    (h : ∀ s ∈ d.sources, pathUnderRoot d.path s.path = true) :
    (Dataset.toJson d).bind Dataset.fromJson = some d := by
  have hm := optionMapMRoundtrip (fun s => s.toJson d.path)
    (fun sj => Source.fromJson sj d.path) d.sources
    (fun s hs => sourceRoundtrip d.path s (h s hs))
  cases hf : optionMapM (fun s => s.toJson d.path) d.sources with
  | none => rw [hf] at hm; simp at hm
  | some sjs =>
      rw [hf] at hm
      simp only [Option.some_bind] at hm
      simp [Dataset.toJson, Dataset.fromJson, hf, hm]

/-- C3 witness: a concrete dataset with mixed statuses, a `None` path and
an in-root path round-trips. -/
theorem dataset_roundtrip_witness :
    (∀ s ∈ (Dataset.mk "ds" ["root"]
        [Source.mk "a" none .AWAITING_DOWNLOAD,
         Source.mk "b" (some ["root", "b"]) .DOWNLOADED,
         Source.mk "c" none .SKIPPED]).sources,
      pathUnderRoot ["root"] s.path = true)
    ∧ (Dataset.toJson (Dataset.mk "ds" ["root"]
        [Source.mk "a" none .AWAITING_DOWNLOAD,
         Source.mk "b" (some ["root", "b"]) .DOWNLOADED,
         Source.mk "c" none .SKIPPED])).bind Dataset.fromJson
      = some (Dataset.mk "ds" ["root"]
        [Source.mk "a" none .AWAITING_DOWNLOAD,
         Source.mk "b" (some ["root", "b"]) .DOWNLOADED,
         Source.mk "c" none .SKIPPED]) :=
  ⟨by decide, dataset_roundtrip _ (by decide)⟩

theorem roundHalfEven_natDiv4 (n : Nat) :
    roundHalfEven ((n : ℚ) / 4) = (pythonRoundDiv4 n : ℤ) := by
  obtain ⟨a, r, h4, rfl⟩ : ∃ a r, r < 4 ∧ 4 * a + r = n :=
    ⟨n / 4, n % 4, Nat.mod_lt _ (by norm_num), Nat.div_add_mod n 4⟩
  have hpy : pythonRoundDiv4 (4 * a + r)
      = if r < 2 then a else if r = 3 then a + 1
        else if a % 2 = 0 then a else a + 1 := by
    have h1 : (4 * a + r) % 4 = r := by omega
    have h2 : (4 * a + r) / 4 = a := by omega
    simp only [pythonRoundDiv4, h1, h2]
  have hq : ((4 * a + r : ℕ) : ℚ) / 4 = ((a : ℤ) : ℚ) + (r : ℚ) / 4 := by
    push_cast
    ring
  have hflr : ⌊(r : ℚ) / 4⌋ = 0 := by
    rw [Int.floor_eq_zero_iff]
    refine ⟨by positivity, ?_⟩
    have hr4 : (r : ℚ) < 4 := by exact_mod_cast h4
    linarith
  have hfl : ⌊((4 * a + r : ℕ) : ℚ) / 4⌋ = (a : ℤ) := by
    rw [hq, Int.floor_int_add, hflr, add_zero]
  have hsub : ((4 * a + r : ℕ) : ℚ) / 4 - (((a : ℤ)) : ℚ) = (r : ℚ) / 4 := by
    rw [hq]
    push_cast
    ring
  rw [hpy]
  simp only [roundHalfEven, hfl, hsub]
  interval_cases r
  · rw [if_pos (show (((0 : ℕ) : ℚ) / 4 < 1 / 2) by norm_num),
      if_pos (show (0 : ℕ) < 2 by norm_num)]
  · rw [if_pos (show (((1 : ℕ) : ℚ) / 4 < 1 / 2) by norm_num),
      if_pos (show (1 : ℕ) < 2 by norm_num)]
  · rw [if_neg (show ¬ (((2 : ℕ) : ℚ) / 4 < 1 / 2) by norm_num),
      if_neg (show ¬ ((1 : ℚ) / 2 < ((2 : ℕ) : ℚ) / 4) by norm_num),
      if_neg (show ¬ ((2 : ℕ) < 2) by norm_num),
      if_neg (show ¬ ((2 : ℕ) = 3) by norm_num)]
    by_cases hp : a % 2 = 0
    · rw [if_pos (show ((a : ℕ) : ℤ) % 2 = 0 by omega), if_pos hp]
    · rw [if_neg (show ¬ (((a : ℕ) : ℤ) % 2 = 0) by omega), if_neg hp]
      push_cast
      ring
  · rw [if_neg (show ¬ (((3 : ℕ) : ℚ) / 4 < 1 / 2) by norm_num),
      if_pos (show ((1 : ℚ) / 2 < ((3 : ℕ) : ℚ) / 4) by norm_num),
      if_neg (show ¬ ((3 : ℕ) < 2) by norm_num),
      if_pos (show (3 : ℕ) = 3 from rfl)]
    push_cast
    ring

/-- C8: `workers` is a pure function of the detected parallelism `P`
(which degrades to 4 when `os.cpu_count()` is undetectable): category
`io` yields `4 × P`, `cpu` yields `round(1.25 × P)` and `both` yields
`round(2 × P) = 2 × P` (Python `round`, i.e. nearest with ties to even),
and any other category fails with an invalid-argument error. -/
theorem workers_spec (oc : Option Nat) (s : String)
    (hs : s ≠ "io" ∧ s ≠ "cpu" ∧ s ≠ "both") :
    workers oc "io" = .ok (4 * cpuCountOr4 oc)
    ∧ workers oc "cpu"
        = .ok (roundHalfEven ((cpuCountOr4 oc : ℚ) * (5 / 4))).toNat
    ∧ workers oc "both"
        = .ok (roundHalfEven ((cpuCountOr4 oc : ℚ) * 2)).toNat
    ∧ cpuCountOr4 none = 4
    ∧ workers oc s = .error ("Invalid heavy workload type: " ++ s) := by
  refine ⟨?_, ?_, ?_, rfl, ?_⟩
  · have hio : workers oc "io" = .ok (cpuCountOr4 oc * 4) := rfl
    rw [hio, Nat.mul_comm]
  · have hq : (cpuCountOr4 oc : ℚ) * (5 / 4) = ((cpuCountOr4 oc * 5 : ℕ) : ℚ) / 4 := by
      push_cast
      ring
    rw [hq, roundHalfEven_natDiv4, Int.toNat_natCast]
    rfl
  · have hq : (cpuCountOr4 oc : ℚ) * 2 = ((cpuCountOr4 oc * 8 : ℕ) : ℚ) / 4 := by
      push_cast
      ring
    rw [hq, roundHalfEven_natDiv4, Int.toNat_natCast]
    rfl
  · simp only [workers, if_neg hs.1, if_neg hs.2.1, if_neg hs.2.2]

/-- C8 witness: with 6 detected cores, `io ↦ 24`, `cpu ↦ round(7.5) = 8`,
`both ↦ 12`, and the category `gpu` is rejected. -/
theorem workers_spec_witness :
    (("gpu" : String) ≠ "io" ∧ ("gpu" : String) ≠ "cpu" ∧ ("gpu" : String) ≠ "both")
    ∧ (workers (some 6) "io" = .ok (4 * cpuCountOr4 (some 6))
      ∧ workers (some 6) "cpu"
          = .ok (roundHalfEven ((cpuCountOr4 (some 6) : ℚ) * (5 / 4))).toNat
      ∧ workers (some 6) "both"
          = .ok (roundHalfEven ((cpuCountOr4 (some 6) : ℚ) * 2)).toNat
      ∧ cpuCountOr4 none = 4
      ∧ workers (some 6) "gpu" = .error ("Invalid heavy workload type: " ++ "gpu")) :=
  ⟨by decide, workers_spec (some 6) "gpu" (by decide)⟩

/-- C9: constructing `SkipError.from_source s reason` marks `s` `SKIPPED`
as part of construction — before the error value even reaches its `raise`
site — and the error carries the source's name and the given reason; the
source's other fields are untouched. -/
theorem skip_error_from_source_spec (s : Source) (desc : Option String) :
    (SkipError.from_source s desc).1.status = .SKIPPED
    ∧ (SkipError.from_source s desc).2.project = s.name
    ∧ (SkipError.from_source s desc).2.description = desc
    ∧ (SkipError.from_source s desc).1.name = s.name
    ∧ (SkipError.from_source s desc).1.path = s.path :=
  ⟨rfl, rfl, rfl, rfl, rfl⟩

/-- C2 counterexample: the claim covers the `daedalus` variant of
`Dataset.cache` as well, but that variant opens the destination directly:
crashing right after the truncating `open` (after the first of its two
steps) leaves the previously written cache file at content `""`, not
byte-for-byte unchanged at `"old"`. -/
theorem daedalus_dataset_cache_not_atomic :
    (runOps (FileState.mk (some "old") none)
        ((daedalusDatasetCacheOps "new").take 1)).dest = some ""
    ∧ some "" ≠ some "old" :=
  ⟨rfl, by decide⟩

/-- C2 amended: the `sourced` `Dataset.cache` and `GlobalStore.cache`
serialize into a temporary file created in the destination's directory and
then atomically replace the destination, so a crash after any strict
prefix of their steps leaves the destination unchanged and a completed run
leaves exactly the serialized document; the older `daedalus`
`Dataset.cache` writes the destination in place and lacks this
protection. -/
theorem sourced_cache_atomic (serialized : String) (s : FileState) (n : Nat)
    (hn : n < (datasetCacheOps serialized).length) :
    (runOps s ((datasetCacheOps serialized).take n)).dest = s.dest
    ∧ (runOps s (datasetCacheOps serialized)).dest = some serialized
    ∧ (runOps s ((globalStoreCacheOps serialized).take n)).dest = s.dest
    ∧ (runOps s (globalStoreCacheOps serialized)).dest = some serialized := by
  have h3 : n < 3 := hn
  interval_cases n <;> exact ⟨rfl, rfl, rfl, rfl⟩

/-- C2 witness: crashing right before the final replace (after two of the
three steps) leaves a previous document `"prev"` intact, and the full run
installs `"doc"`. -/
theorem sourced_cache_atomic_witness :
    ((2 : Nat) < (datasetCacheOps "doc").length)
    ∧ ((runOps (FileState.mk (some "prev") none)
          ((datasetCacheOps "doc").take 2)).dest = some "prev"
      ∧ (runOps (FileState.mk (some "prev") none)
          (datasetCacheOps "doc")).dest = some "doc"
      ∧ (runOps (FileState.mk (some "prev") none)
          ((globalStoreCacheOps "doc").take 2)).dest = some "prev"
      ∧ (runOps (FileState.mk (some "prev") none)
          (globalStoreCacheOps "doc")).dest = some "doc") :=
  ⟨by decide, sourced_cache_atomic "doc" (FileState.mk (some "prev") none) 2 (by decide)⟩

/-- C4: the invariant fails on the code.  Starting from a pending source
(`AWAITING_DOWNLOAD`, path `None`) with no pre-existing destination
directory, a successful download whose archive does not extract to exactly
one top-level directory takes the `okOtherLayout` branch: `source.path` is
assigned unconditionally after extraction, but
`source.status = DOWNLOADED` sits inside the single-top-level-directory
conditional, so the call returns a source that is still
`AWAITING_DOWNLOAD` with its path set. -/
theorem download_target_invariant_violated :
    (download_target false .okOtherLayout ["base"]
        (Source.mk "pkg" none .AWAITING_DOWNLOAD)).source.status
      = .AWAITING_DOWNLOAD
    ∧ (download_target false .okOtherLayout ["base"]
        (Source.mk "pkg" none .AWAITING_DOWNLOAD)).source.path
      = some ["base", "pkg"]
    ∧ ¬ sourceStatusPathInv
        (download_target false .okOtherLayout ["base"]
          (Source.mk "pkg" none .AWAITING_DOWNLOAD)).source :=
  ⟨rfl, rfl, fun h => by
    simp [sourceStatusPathInv, download_target, SkipError.from_source] at h⟩

/-- C10: when the destination directory `base_path / source.name` already
exists, `download_target` sets the source's path to it and its status to
`DOWNLOADED` and returns at once — no mkdir, no network access, no
extraction, no inspection of the directory's contents (the effect list is
empty), no exception — whatever status the source had on record. -/
theorem download_target_existing_dir (outcome : FetchOutcome)
    (basePath : PyPath) (s : Source) :
    download_target true outcome basePath s
      = { source := { s with path := some (basePath ++ [s.name]), status := .DOWNLOADED }
          exc := none
          effects := []
          destDirExists := true } := rfl

/-- C5 counterexample: one batch holding a task that raised a non-skip
exception followed by a successfully completed task.  The loop aborts at
the failing task: the remaining completed task is never consumed and the
dataset is persisted zero times — refuting "the failure of that one item
does not abort the batch: the acquisition loop continues consuming and
persisting the remaining items". -/
theorem acquisition_loop_aborts_cex :
    consumeBatches [[TaskResult.err, TaskResult.ok]] = (0, true)
    ∧ ((0 : Nat), true) ≠ ((2 : Nat), false) :=
  ⟨rfl, by decide⟩

theorem consumeBatch_no_err (b : List TaskResult) (h : TaskResult.err ∉ b) :
    consumeBatch b = (b.length, false) := by
  induction b with
  | nil => rfl
  | cons t rest ih =>
      have ht : t ≠ TaskResult.err := fun he => h (he ▸ List.mem_cons_self t rest)
      have hr := ih (fun hm => h (List.mem_cons_of_mem t hm))
      cases t with
      | err => exact absurd rfl ht
      | ok => simp [consumeBatch, hr]
      | skip => simp [consumeBatch, hr]

/-- C5 amended: (i) whenever `download_target` lets any exception escape,
the partially created destination directory has already been removed by
`_clear_on_failure` when the exception propagates; (ii) a `SkipError`
failure does not abort the batch — when no task raised a non-skip
exception the loop consumes every task of every batch, persisting the
dataset once per task; (iii) but any other (non-`SkipError`) exception
aborts the consumption loop at that task, because only `SkipError` is
caught. -/
theorem acquisition_failure_handling
    (dirExists : Bool) (outcome : FetchOutcome) (basePath : PyPath) (s : Source)
    (batches : List (List TaskResult)) (rest : List TaskResult)
    (hno : ∀ b ∈ batches, TaskResult.err ∉ b)
    (hexc : (download_target dirExists outcome basePath s).exc.isSome = true) :
    (download_target dirExists outcome basePath s).destDirExists = false
    ∧ consumeBatches batches = ((batches.map List.length).sum, false)
    ∧ consumeBatch (TaskResult.err :: rest) = (0, true) := by
  refine ⟨?_, ?_, rfl⟩
  · cases dirExists with
    | true => simp [download_target] at hexc
    | false =>
        cases outcome <;>
          first
            | rfl
            | simp [download_target] at hexc
  · induction batches with
    | nil => rfl
    | cons b bs ih =>
        have hb := consumeBatch_no_err b (hno b (List.mem_cons_self b bs))
        have hbs := ih (fun x hx => hno x (List.mem_cons_of_mem b hx))
        simp [consumeBatches, hb, hbs]

/-- C5 amended witness: a failed extraction cleans up its directory, and a
run whose only failures are skips persists after every task without
aborting. -/
theorem acquisition_failure_handling_witness :
    ((∀ b ∈ [[TaskResult.ok], [TaskResult.skip, TaskResult.ok]], TaskResult.err ∉ b)
      ∧ (download_target false .unpackRaises ["base"]
          (Source.mk "pkg" none .AWAITING_DOWNLOAD)).exc.isSome = true)
    ∧ ((download_target false .unpackRaises ["base"]
          (Source.mk "pkg" none .AWAITING_DOWNLOAD)).destDirExists = false
      ∧ consumeBatches [[TaskResult.ok], [TaskResult.skip, TaskResult.ok]]
          = (([[TaskResult.ok], [TaskResult.skip, TaskResult.ok]].map List.length).sum, false)
      ∧ consumeBatch (TaskResult.err :: [TaskResult.ok]) = (0, true)) :=
  ⟨⟨by decide, by decide⟩,
    acquisition_failure_handling false .unpackRaises ["base"]
      (Source.mk "pkg" none .AWAITING_DOWNLOAD)
      [[TaskResult.ok], [TaskResult.skip, TaskResult.ok]] [TaskResult.ok]
      (by decide) (by decide)⟩

/-- C6: re-running acquisition submits exactly the sources whose status is
`AWAITING_DOWNLOAD`, and every source in a terminal state (`DOWNLOADED` or
`SKIPPED`) is untouched in place: the same name, path and status sit at
the same position afterwards, and the dataset's own name and path are
unchanged. -/
theorem download_pypi_dataset_resume (step : Source → Source) (d : Dataset)
    (i : Nat) (s : Source)
    (hi : d.sources[i]? = some s) (hterm : s.status ≠ .AWAITING_DOWNLOAD) :
    (download_pypi_dataset step d).1
        = d.sources.filter (fun s => s.status == .AWAITING_DOWNLOAD)
    ∧ (download_pypi_dataset step d).2.sources[i]? = some s
    ∧ (download_pypi_dataset step d).2.name = d.name
    ∧ (download_pypi_dataset step d).2.path = d.path := by
  refine ⟨rfl, ?_, rfl, rfl⟩
  simp [download_pypi_dataset, List.getElem?_map, hi, if_neg hterm]

/-- C6 witness: a dataset whose second source is already `DOWNLOADED` —
only the pending first source is submitted and the second is returned
unchanged at its position. -/
theorem download_pypi_dataset_resume_witness :
    ((Dataset.mk "ds" ["root"]
        [Source.mk "a" none .AWAITING_DOWNLOAD,
         Source.mk "b" (some ["root", "b"]) .DOWNLOADED]).sources[1]?
        = some (Source.mk "b" (some ["root", "b"]) .DOWNLOADED)
      ∧ (Source.mk "b" (some ["root", "b"]) .DOWNLOADED).status
          ≠ .AWAITING_DOWNLOAD)
    ∧ ((download_pypi_dataset id (Dataset.mk "ds" ["root"]
          [Source.mk "a" none .AWAITING_DOWNLOAD,
           Source.mk "b" (some ["root", "b"]) .DOWNLOADED])).1
        = (Dataset.mk "ds" ["root"]
            [Source.mk "a" none .AWAITING_DOWNLOAD,
             Source.mk "b" (some ["root", "b"]) .DOWNLOADED]).sources.filter
            (fun s => s.status == .AWAITING_DOWNLOAD)
      ∧ (download_pypi_dataset id (Dataset.mk "ds" ["root"]
          [Source.mk "a" none .AWAITING_DOWNLOAD,
           Source.mk "b" (some ["root", "b"]) .DOWNLOADED])).2.sources[1]?
        = some (Source.mk "b" (some ["root", "b"]) .DOWNLOADED)
      ∧ (download_pypi_dataset id (Dataset.mk "ds" ["root"]
          [Source.mk "a" none .AWAITING_DOWNLOAD,
           Source.mk "b" (some ["root", "b"]) .DOWNLOADED])).2.name = "ds"
      ∧ (download_pypi_dataset id (Dataset.mk "ds" ["root"]
          [Source.mk "a" none .AWAITING_DOWNLOAD,
           Source.mk "b" (some ["root", "b"]) .DOWNLOADED])).2.path = ["root"]) :=
  ⟨⟨by decide, by decide⟩,
    download_pypi_dataset_resume id
      (Dataset.mk "ds" ["root"]
        [Source.mk "a" none .AWAITING_DOWNLOAD,
         Source.mk "b" (some ["root", "b"]) .DOWNLOADED])
      1 (Source.mk "b" (some ["root", "b"]) .DOWNLOADED)
      (by decide) (by decide)⟩

theorem dictInsert_append {α : Type} (k : String) (v : α)
    (l : List (String × α)) (h : k ∉ l.map Prod.fst) :
    dictInsert k v l = l ++ [(k, v)] := by
  induction l with
  | nil => rfl
  | cons e rest ih =>
      have hk : e.1 ≠ k := fun he => h (by simp [he])
      have hr : k ∉ rest.map Prod.fst := fun hm => h (by simp [hm])
      simp [dictInsert, hk, ih hr]

theorem loadDatasets_spec (fs : MetaFs) (refs : List (String × PyPath))
    (acc : List (String × Dataset)) (warns : List String)
    (hnd : (acc.map Prod.fst ++ refs.map Prod.fst).Nodup)
    (hwf : ∀ e ∈ refs, Dataset.from_cache fs e.2 ≠ .error .malformed) :
    loadDatasets fs acc warns refs
      = .ok (acc ++ refs.filterMap (loadedEntry fs),
          warns ++ refs.filterMap (droppedName fs)) := by
  induction refs generalizing acc warns with
  | nil => simp [loadDatasets]
  | cons e rest ih =>
      have hwfe := hwf e (List.mem_cons_self e rest)
      have hwfr : ∀ x ∈ rest, Dataset.from_cache fs x.2 ≠ .error .malformed :=
        fun x hx => hwf x (List.mem_cons_of_mem e hx)
      cases hfc : Dataset.from_cache fs e.2 with
      | error err =>
          cases err with
          | malformed => exact absurd hfc hwfe
          | fileNotFound =>
              have hnd2 : (acc.map Prod.fst ++ rest.map Prod.fst).Nodup := by
                simp only [List.map_cons, List.nodup_append, List.nodup_cons] at hnd ⊢
                exact ⟨hnd.1, hnd.2.1.2, fun a ha hb => hnd.2.2 ha (by simp [hb])⟩
              rw [show loadDatasets fs acc warns (e :: rest)
                  = loadDatasets fs acc (warns ++ [e.1]) rest by
                    simp [loadDatasets, hfc]]
              rw [ih acc (warns ++ [e.1]) hnd2 hwfr]
              simp [List.filterMap_cons, loadedEntry, droppedName, hfc]
      | ok d =>
          have hnotin : e.1 ∉ acc.map Prod.fst := by
            simp only [List.map_cons, List.nodup_append, List.nodup_cons] at hnd
            exact fun hin => hnd.2.2 hin (by simp)
          have hnd2 : ((dictInsert e.1 d acc).map Prod.fst
              ++ rest.map Prod.fst).Nodup := by
            rw [dictInsert_append e.1 d acc hnotin]
            simp only [List.map_append, List.map_cons, List.map_nil,
              List.append_assoc, List.singleton_append]
            exact hnd
          rw [show loadDatasets fs acc warns (e :: rest)
              = loadDatasets fs (dictInsert e.1 d acc) warns rest by
                simp [loadDatasets, hfc]]
          rw [ih (dictInsert e.1 d acc) warns hnd2 hwfr,
            dictInsert_append e.1 d acc hnotin]
          simp [List.filterMap_cons, loadedEntry, droppedName, hfc]

/-- C7: loading a global store drops — with a warning naming it — exactly
each recorded reference whose dataset cache file is missing on disk, keeps
exactly the datasets whose cache files load, and loading from a path where
no store file exists at all yields an empty registry rather than
failing. -/
theorem global_store_tolerant_load (fs : MetaFs) (path : PyPath)
    (j : GlobalStoreJson) (storeFs : PyPath → Option GlobalStoreJson)
    (hnd : (j.datasets.map Prod.fst).Nodup)
    (hwf : ∀ e ∈ j.datasets, Dataset.from_cache fs e.2 ≠ .error .malformed)
    (hmissing : storeFs path = none) :
    GlobalStore.from_json fs path j
      = .ok (GlobalStore.mk path (j.datasets.filterMap (loadedEntry fs)),
          j.datasets.filterMap (droppedName fs))
    ∧ GlobalStore.from_file storeFs fs path
      = .ok (GlobalStore.mk path [], []) := by
  constructor
  · have h := loadDatasets_spec fs j.datasets [] [] (by simpa using hnd) hwf
    simp [GlobalStore.from_json, h]
  · simp [GlobalStore.from_file, hmissing]

/-- C7 witness: a store recording datasets `keep` and `gone`, where only
`keep`'s cache file exists on disk, loads to a registry holding exactly
`keep` with one warning naming `gone`; and a wholly missing store file
loads as an empty registry. -/
theorem global_store_tolerant_load_witness :
    (((GlobalStoreJson.mk [("keep", ["d1"]), ("gone", ["d2"])]).datasets.map
        Prod.fst).Nodup
      ∧ (∀ e ∈ (GlobalStoreJson.mk [("keep", ["d1"]), ("gone", ["d2"])]).datasets,
          Dataset.from_cache [(["d1", "datasets.json"], DatasetJson.mk "keep" ["d1"] [])] e.2
            ≠ .error .malformed)
      ∧ (fun (_ : PyPath) => (none : Option GlobalStoreJson)) ["cfg", "store.json"] = none)
    ∧ (GlobalStore.from_json [(["d1", "datasets.json"], DatasetJson.mk "keep" ["d1"] [])]
        ["cfg", "store.json"] (GlobalStoreJson.mk [("keep", ["d1"]), ("gone", ["d2"])])
      = .ok (GlobalStore.mk ["cfg", "store.json"]
            ((GlobalStoreJson.mk [("keep", ["d1"]), ("gone", ["d2"])]).datasets.filterMap
              (loadedEntry [(["d1", "datasets.json"], DatasetJson.mk "keep" ["d1"] [])])),
          (GlobalStoreJson.mk [("keep", ["d1"]), ("gone", ["d2"])]).datasets.filterMap
            (droppedName [(["d1", "datasets.json"], DatasetJson.mk "keep" ["d1"] [])]))
      ∧ GlobalStore.from_file (fun (_ : PyPath) => (none : Option GlobalStoreJson))
          [(["d1", "datasets.json"], DatasetJson.mk "keep" ["d1"] [])] ["cfg", "store.json"]
        = .ok (GlobalStore.mk ["cfg", "store.json"] [], [])) :=
  ⟨⟨by decide, by decide, rfl⟩,
    global_store_tolerant_load
      [(["d1", "datasets.json"], DatasetJson.mk "keep" ["d1"] [])]
      ["cfg", "store.json"]
      (GlobalStoreJson.mk [("keep", ["d1"]), ("gone", ["d2"])])
      (fun _ => none) (by decide) (by decide) rfl⟩

theorem buffered_execution_succ (maxB : Nat) (σ : Nat → Finset Nat)
    (fuel k : Nat) (pend : List Nat) (run : Finset Nat) :
    buffered_execution maxB σ (fuel + 1) k ⟨pend, run⟩
      = if pend.take (maxB - run.card) = [] ∧ run = ∅ then ⟨[], [], ⟨pend, run⟩⟩
        else
          ⟨((run ∪ (pend.take (maxB - run.card)).toFinset) ∩ σ k)
              :: (buffered_execution maxB σ fuel (k + 1)
                ⟨pend.drop (maxB - run.card),
                  (run ∪ (pend.take (maxB - run.card)).toFinset) \ σ k⟩).batches,
            (run ∪ (pend.take (maxB - run.card)).toFinset).card
              :: (buffered_execution maxB σ fuel (k + 1)
                ⟨pend.drop (maxB - run.card),
                  (run ∪ (pend.take (maxB - run.card)).toFinset) \ σ k⟩).outstanding,
            (buffered_execution maxB σ fuel (k + 1)
              ⟨pend.drop (maxB - run.card),
                (run ∪ (pend.take (maxB - run.card)).toFinset) \ σ k⟩).final⟩ := rfl

theorem buffered_execution_invariants (maxB : Nat) (σ : Nat → Finset Nat) :
    ∀ (fuel k : Nat) (pend : List Nat) (run : Finset Nat),
      pend.Nodup → (∀ x ∈ pend, x ∉ run) → run.card ≤ maxB →
      (∀ b ∈ (buffered_execution maxB σ fuel k ⟨pend, run⟩).batches,
          b ⊆ pend.toFinset ∪ run)
      ∧ (buffered_execution maxB σ fuel k ⟨pend, run⟩).batches.Pairwise
          (fun a b => Disjoint a b)
      ∧ (∀ c ∈ (buffered_execution maxB σ fuel k ⟨pend, run⟩).outstanding,
          c ≤ maxB)
      ∧ ((buffered_execution maxB σ fuel k ⟨pend, run⟩).final.pending = [] →
          (buffered_execution maxB σ fuel k ⟨pend, run⟩).final.running = ∅ →
          batchUnion (buffered_execution maxB σ fuel k ⟨pend, run⟩).batches
            = pend.toFinset ∪ run) := by
  intro fuel
  induction fuel with
  | zero =>
      intro k pend run hnd hdisj hcard
      refine ⟨by simp [buffered_execution], by simp [buffered_execution],
        by simp [buffered_execution], ?_⟩
      intro hp hr
      simp only [buffered_execution] at hp hr ⊢
      rw [hp, hr]
      simp [batchUnion]
  | succ fuel ih =>
      intro k pend run hnd hdisj hcard
      rw [buffered_execution_succ]
      by_cases hstop : pend.take (maxB - run.card) = [] ∧ run = ∅
      · rw [if_pos hstop]
        refine ⟨by simp, by simp, by simp, ?_⟩
        intro hp hr
        simp only at hp hr
        rw [hp, hr]
        simp [batchUnion]
      · rw [if_neg hstop]
        have hsplit : pend.take (maxB - run.card) ++ pend.drop (maxB - run.card)
            = pend := List.take_append_drop _ pend
        have hnd12 : (pend.take (maxB - run.card)
            ++ pend.drop (maxB - run.card)).Nodup := by
          rw [hsplit]
          exact hnd
        obtain ⟨ndT, ndD, disjTD⟩ := List.nodup_append.mp hnd12
        have hmemP : ∀ x, x ∈ pend ↔
            x ∈ pend.take (maxB - run.card) ∨ x ∈ pend.drop (maxB - run.card) := by
          intro x
          conv_lhs => rw [← hsplit]
          exact List.mem_append
        have hrun2 : ∀ x, x ∈ run ∪ (pend.take (maxB - run.card)).toFinset ↔
            x ∈ run ∨ x ∈ pend.take (maxB - run.card) := by
          intro x
          simp [Finset.mem_union, List.mem_toFinset]
        have hdisj2 : ∀ x ∈ pend.drop (maxB - run.card),
            x ∉ (run ∪ (pend.take (maxB - run.card)).toFinset) \ σ k := by
          intro x hx hmem
          rcases (hrun2 x).mp (Finset.mem_sdiff.mp hmem).1 with hr | ht
          · exact hdisj x ((hmemP x).mpr (Or.inr hx)) hr
          · exact disjTD ht hx
        have hcard2main : (run ∪ (pend.take (maxB - run.card)).toFinset).card
            ≤ maxB := by
          have h1 := Finset.card_union_le run
            (pend.take (maxB - run.card)).toFinset
          have h2 := List.toFinset_card_le (pend.take (maxB - run.card))
          have h3 : (pend.take (maxB - run.card)).length ≤ maxB - run.card := by
            rw [List.length_take]
            exact Nat.min_le_left _ _
          omega
        have hcard2 : ((run ∪ (pend.take (maxB - run.card)).toFinset) \ σ k).card
            ≤ maxB :=
          le_trans (Finset.card_le_card (Finset.sdiff_subset)) hcard2main
        obtain ⟨ihsub, ihpair, ihout, ihunion⟩ :=
          ih (k + 1) (pend.drop (maxB - run.card))
            ((run ∪ (pend.take (maxB - run.card)).toFinset) \ σ k)
            ndD hdisj2 hcard2
        have hsupp2 : ∀ x, x ∈ (pend.drop (maxB - run.card)).toFinset
              ∪ ((run ∪ (pend.take (maxB - run.card)).toFinset) \ σ k) →
            x ∈ pend.toFinset ∪ run := by
          intro x hx
          simp only [Finset.mem_union, List.mem_toFinset, Finset.mem_sdiff] at hx ⊢
          rcases hx with hx | ⟨hx, _⟩
          · exact Or.inl ((hmemP x).mpr (Or.inr hx))
          · rcases hx with hr | ht
            · exact Or.inr hr
            · exact Or.inl ((hmemP x).mpr (Or.inl ht))
        have hbatch : (run ∪ (pend.take (maxB - run.card)).toFinset) ∩ σ k
            ⊆ pend.toFinset ∪ run := by
          intro x hx
          rcases Finset.mem_inter.mp hx with ⟨hx1, _⟩
          simp only [Finset.mem_union, List.mem_toFinset]
          rcases (hrun2 x).mp hx1 with hr | ht
          · exact Or.inr hr
          · exact Or.inl ((hmemP x).mpr (Or.inl ht))
        have hbatchdisj : ∀ b ∈ (buffered_execution maxB σ fuel (k + 1)
              ⟨pend.drop (maxB - run.card),
                (run ∪ (pend.take (maxB - run.card)).toFinset) \ σ k⟩).batches,
            Disjoint ((run ∪ (pend.take (maxB - run.card)).toFinset) ∩ σ k) b := by
          intro b hb
          rw [Finset.disjoint_left]
          intro x hx hxb
          have hxsub := ihsub b hb hxb
          rcases Finset.mem_inter.mp hx with ⟨hx1, hx2⟩
          simp only [Finset.mem_union, List.mem_toFinset, Finset.mem_sdiff] at hxsub
          rcases hxsub with hxd | ⟨_, hxs⟩
          · rcases (hrun2 x).mp hx1 with hr | ht
            · exact hdisj x ((hmemP x).mpr (Or.inr hxd)) hr
            · exact disjTD ht hxd
          · exact hxs hx2
        refine ⟨?_, ?_, ?_, ?_⟩
        · intro b hb
          simp only [List.mem_cons] at hb
          rcases hb with rfl | hb
          · exact hbatch
          · exact fun x hx => hsupp2 x (ihsub b hb hx)
        · exact List.pairwise_cons.mpr ⟨hbatchdisj, ihpair⟩
        · intro c hc
          simp only [List.mem_cons] at hc
          rcases hc with rfl | hc
          · exact hcard2main
          · exact ihout c hc
        · intro hp hr
          simp only at hp hr
          have hu := ihunion hp hr
          simp only [batchUnion, List.foldr_cons] at hu ⊢
          rw [hu]
          ext x
          simp only [Finset.mem_union, Finset.mem_inter, Finset.mem_sdiff,
            List.mem_toFinset, hmemP x, hrun2 x]
          by_cases hs : x ∈ σ k <;> tauto

/-- C1: for every `max_buffered_tasks ≥ 1`, every finite duplicate-free
input stream (tasks named by their stream position) and every completion
schedule under which the run drains within its fuel, `buffered_execution`
yields completed batches whose union is exactly the set of submitted
inputs and which are pairwise disjoint — every task appears in exactly one
yielded batch, none lost and none duplicated — and the number of
simultaneously outstanding tasks never exceeds `max_buffered_tasks` at any
poll. -/
theorem buffered_execution_correct (maxB fuel : Nat) (σ : Nat → Finset Nat)
    (inputs : List Nat) (hone : 1 ≤ maxB) (hnd : inputs.Nodup)
    (hdone : (buffered_execution maxB σ fuel 0 ⟨inputs, ∅⟩).final = ⟨[], ∅⟩) :
    batchUnion (buffered_execution maxB σ fuel 0 ⟨inputs, ∅⟩).batches
        = inputs.toFinset
    ∧ (buffered_execution maxB σ fuel 0 ⟨inputs, ∅⟩).batches.Pairwise
        (fun a b => Disjoint a b)
    ∧ (∀ c ∈ (buffered_execution maxB σ fuel 0 ⟨inputs, ∅⟩).outstanding,
        c ≤ maxB) := by
  obtain ⟨hsub, hpair, hout, hunion⟩ :=
    buffered_execution_invariants maxB σ fuel 0 inputs ∅ hnd
      (fun x _ => Finset.not_mem_empty x) (by simp)
  have hp : (buffered_execution maxB σ fuel 0 ⟨inputs, ∅⟩).final.pending = [] := by
    rw [hdone]
  have hr : (buffered_execution maxB σ fuel 0 ⟨inputs, ∅⟩).final.running = ∅ := by
    rw [hdone]
  refine ⟨?_, hpair, hout⟩
  rw [hunion hp hr]
  simp

/-- C1 witness: three tasks through a buffer of two, with every running
task finishing at each poll: the run drains in five iterations, the
batches partition the three tasks, and at most two tasks are ever
outstanding. -/
theorem buffered_execution_correct_witness :
    (1 ≤ 2 ∧ ([0, 1, 2] : List Nat).Nodup
      ∧ (buffered_execution 2 (fun _ => {0, 1, 2}) 5 0 ⟨[0, 1, 2], ∅⟩).final
          = ⟨[], ∅⟩)
    ∧ (batchUnion
          (buffered_execution 2 (fun _ => {0, 1, 2}) 5 0 ⟨[0, 1, 2], ∅⟩).batches
        = ([0, 1, 2] : List Nat).toFinset
      ∧ (buffered_execution 2 (fun _ => {0, 1, 2}) 5 0
            ⟨[0, 1, 2], ∅⟩).batches.Pairwise (fun a b => Disjoint a b)
      ∧ (∀ c ∈ (buffered_execution 2 (fun _ => {0, 1, 2}) 5 0
            ⟨[0, 1, 2], ∅⟩).outstanding, c ≤ 2)) :=
  ⟨⟨by decide, by decide, by decide⟩,
    buffered_execution_correct 2 5 (fun _ => {0, 1, 2}) [0, 1, 2]
      (by decide) (by decide) (by decide)⟩
